import Mathlib

/-!
Verification development for the flight_indicators repository.

The definitions below are shallow embeddings of the JavaScript source:
  * src/geometry/angle.js        (C2D, D2C, POC, angleFrom, angularDelta)
  * src/utils/mouse.js           (Mouse: register/unregister/capture/dispatch)
  * src/utils/time.js            (lerp, AnimatedValue)
  * src/disposable.js            (Disposable listener list)
  * src/animated.js, airplane.js (keyed lerp maps, Airplane setters)
  * src/rotatable-button.js      (Rotatable.onMouseMove)

JavaScript numbers are modelled as rationals (exact arithmetic) except where
the source computes with transcendental functions (Math.sin, Math.atan2),
where reals are used.  `console.assert` never halts execution in a browser:
it is modelled as a boolean "error signalled" flag returned alongside the
result, with execution continuing, exactly as in the source.
-/

/-- JavaScript remainder `a % m`: `a - m * trunc (a / m)`, where `trunc`
rounds toward zero, so the result carries the sign of the dividend `a`. -/
def jsMod (a m : ℚ) : ℚ :=
  a - m * (if 0 ≤ a / m then ((⌊a / m⌋ : ℤ) : ℚ) else ((⌈a / m⌉ : ℤ) : ℚ))

/-- Source `C2D` from src/geometry/angle.js: clock angle (0° = straight up) to a
math-convention angle, `(270 + angle) % 360` with the JS remainder. -/
def C2D (angle : ℚ) : ℚ :=
  jsMod (270 + angle) 360

/-- Source `D2C` from src/geometry/angle.js: math-convention angle to a clock angle,
`(angle - 90) % 360` with the JS remainder.  The source's own doc comment
notes "0 degrees returned as -90". -/
def D2C (angle : ℚ) : ℚ :=
  jsMod (angle - 90) 360

/-- First while-loop of `angularDelta` in src/geometry/angle.js:
`while (difference < -180) difference += 360`. -/
def wrapLow {α : Type} [LinearOrderedField α] [FloorRing α] (d : α) : α :=
  if d < -180 then wrapLow (d + 360) else d
termination_by (⌈(-180 - d) / 360⌉).toNat
decreasing_by
  have key : ⌈(-180 - (d + 360)) / 360⌉ = ⌈(-180 - d) / 360⌉ - 1 := by
    rw [show (-180 - (d + 360)) / 360 = (-180 - d) / 360 - ((1 : ℤ) : α) by
      push_cast; ring]
    exact Int.ceil_sub_int ((-180 - d) / 360) 1
  have pos : 0 < ⌈(-180 - d) / 360⌉ := by
    rw [Int.ceil_pos]
    have h360 : (0 : α) < 360 := by norm_num
    exact div_pos (by linarith) h360
  omega

/-- Second while-loop of `angularDelta` in src/geometry/angle.js:
`while (difference > 180) difference -= 360`. -/
def wrapHigh {α : Type} [LinearOrderedField α] [FloorRing α] (d : α) : α :=
  if 180 < d then wrapHigh (d - 360) else d
termination_by (⌈(d - 180) / 360⌉).toNat
decreasing_by
  have key : ⌈(d - 360 - 180) / 360⌉ = ⌈(d - 180) / 360⌉ - 1 := by
    rw [show (d - 360 - 180) / 360 = (d - 180) / 360 - ((1 : ℤ) : α) by
      push_cast; ring]
    exact Int.ceil_sub_int ((d - 180) / 360) 1
  have pos : 0 < ⌈(d - 180) / 360⌉ := by
    rw [Int.ceil_pos]
    have h360 : (0 : α) < 360 := by norm_num
    exact div_pos (by linarith) h360
  omega

/-- Source `angularDelta` from src/geometry/angle.js: signed angular delta between
two angles; `difference = secondAngle - firstAngle` then the two wraparound
loops. -/
def angularDelta {α : Type} [LinearOrderedField α] [FloorRing α]
    (firstAngle secondAngle : α) : α :=
  wrapHigh (wrapLow (secondAngle - firstAngle))

theorem wrapLow_ge {α : Type} [LinearOrderedField α] [FloorRing α] (d : α) :
    -180 ≤ wrapLow d := by
  induction d using wrapLow.induct with
  | case1 d h ih =>
    rw [wrapLow, if_pos h]
    exact ih
  | case2 d h =>
    rw [wrapLow, if_neg h]
    linarith [not_lt.mp h]

theorem wrapLow_congr {α : Type} [LinearOrderedField α] [FloorRing α] (d : α) :
    ∃ n : ℕ, wrapLow d = d + 360 * n := by
  induction d using wrapLow.induct with
  | case1 d h ih =>
    obtain ⟨n, hn⟩ := ih
    refine ⟨n + 1, ?_⟩
    rw [wrapLow, if_pos h, hn]
    push_cast
    ring
  | case2 d h =>
    exact ⟨0, by rw [wrapLow, if_neg h]; push_cast; ring⟩

theorem wrapHigh_le {α : Type} [LinearOrderedField α] [FloorRing α] (d : α) :
    wrapHigh d ≤ 180 := by
  induction d using wrapHigh.induct with
  | case1 d h ih =>
    rw [wrapHigh, if_pos h]
    exact ih
  | case2 d h =>
    rw [wrapHigh, if_neg h]
    linarith [not_lt.mp h]

theorem wrapHigh_ge {α : Type} [LinearOrderedField α] [FloorRing α] (d : α)
    (hd : -180 ≤ d) : -180 ≤ wrapHigh d := by
  induction d using wrapHigh.induct with
  | case1 d h ih =>
    rw [wrapHigh, if_pos h]
    exact ih (by linarith)
  | case2 d h =>
    rw [wrapHigh, if_neg h]
    exact hd

theorem wrapHigh_congr {α : Type} [LinearOrderedField α] [FloorRing α]
    (d : α) : ∃ n : ℕ, wrapHigh d = d - 360 * n := by
  induction d using wrapHigh.induct with
  | case1 d h ih =>
    obtain ⟨n, hn⟩ := ih
    refine ⟨n + 1, ?_⟩
    rw [wrapHigh, if_pos h, hn]
    push_cast
    ring
  | case2 d h =>
    exact ⟨0, by rw [wrapHigh, if_neg h]; push_cast; ring⟩

/-- C2: for all angles `a`, `b`, `angularDelta a b` lies in `[-180, 180]` and
is congruent to `b - a` modulo 360; and the wraparound examples
`angularDelta 350 10 = 20`, `angularDelta 10 350 = -20` hold. -/
theorem angularDelta_range_congruent :
    (∀ a b : ℝ, -180 ≤ angularDelta a b ∧ angularDelta a b ≤ 180 ∧
        ∃ k : ℤ, angularDelta a b - (b - a) = 360 * k) ∧
    angularDelta (350 : ℝ) 10 = 20 ∧ angularDelta (10 : ℝ) 350 = -20 := by
  refine ⟨fun a b => ?_, ?_, ?_⟩
  · refine ⟨wrapHigh_ge _ (wrapLow_ge _), wrapHigh_le _, ?_⟩
    obtain ⟨n, hn⟩ := wrapLow_congr (α := ℝ) (b - a)
    obtain ⟨m, hm⟩ := wrapHigh_congr (α := ℝ) (wrapLow (b - a))
    refine ⟨(n : ℤ) - m, ?_⟩
    unfold angularDelta
    rw [hm, hn]
    push_cast
    ring
  · show wrapHigh (wrapLow ((10 : ℝ) - 350)) = 20
    rw [show (10 : ℝ) - 350 = -340 by norm_num]
    rw [wrapLow, if_pos (by norm_num)]
    rw [show (-340 : ℝ) + 360 = 20 by norm_num]
    rw [wrapLow, if_neg (by norm_num)]
    rw [wrapHigh, if_neg (by norm_num)]
  · show wrapHigh (wrapLow ((350 : ℝ) - 10)) = -20
    rw [show (350 : ℝ) - 10 = 340 by norm_num]
    rw [wrapLow, if_neg (by norm_num)]
    rw [wrapHigh, if_pos (by norm_num)]
    rw [show (340 : ℝ) - 360 = -20 by norm_num]
    rw [wrapHigh, if_neg (by norm_num)]

theorem jsMod_congr (a : ℚ) : ∃ k : ℤ, jsMod a 360 - a = 360 * k := by
  unfold jsMod
  by_cases h : 0 ≤ a / 360
  · exact ⟨-⌊a / 360⌋, by rw [if_pos h]; push_cast; ring⟩
  · exact ⟨-⌈a / 360⌉, by rw [if_neg h]; push_cast; ring⟩

theorem jsMod_bounds (a : ℚ) : -360 < jsMod a 360 ∧ jsMod a 360 < 360 := by
  unfold jsMod
  by_cases h : 0 ≤ a / 360
  · rw [if_pos h]
    have h1 : (⌊a / 360⌋ : ℚ) ≤ a / 360 := Int.floor_le _
    have h2 : a / 360 < (⌊a / 360⌋ : ℚ) + 1 := Int.lt_floor_add_one _
    constructor <;> nlinarith
  · rw [if_neg h]
    have h1 : a / 360 ≤ (⌈a / 360⌉ : ℚ) := Int.le_ceil _
    have h2 : (⌈a / 360⌉ : ℚ) < a / 360 + 1 := Int.ceil_lt_add_one _
    constructor <;> nlinarith

/-- C6 counterexample: `D2C 0 = -90`, which is negative, so `D2C` does not
reduce its output into `[0, 360)`. -/
theorem D2C_zero_negative : D2C 0 = -90 ∧ ¬ (0 ≤ D2C 0) := by
  have h : D2C 0 = -90 := by
    unfold D2C jsMod
    norm_num
  exact ⟨h, by rw [h]; norm_num⟩

/-- C6 (amended): `C2D` and `D2C` return the JS remainder by 360 — a value
congruent to `270 + angle` (resp. `angle - 90`) modulo 360, lying in the open
interval `(-360, 360)` (negative when the pre-remainder quantity is
negative), rather than being reduced into `[0, 360)`. -/
theorem C2D_D2C_jsRemainder (angle : ℚ) :
    (∃ k : ℤ, C2D angle - (270 + angle) = 360 * k) ∧
      -360 < C2D angle ∧ C2D angle < 360 ∧
    (∃ k : ℤ, D2C angle - (angle - 90) = 360 * k) ∧
      -360 < D2C angle ∧ D2C angle < 360 := by
  obtain ⟨hc1, hc2⟩ := jsMod_bounds (270 + angle)
  obtain ⟨hd1, hd2⟩ := jsMod_bounds (angle - 90)
  exact ⟨jsMod_congr (270 + angle), hc1, hc2,
         jsMod_congr (angle - 90), hd1, hd2⟩

/-!
Embedding of src/utils/mouse.js.  DOM nodes and callback functions are
identified by natural numbers.  The DOM-supplied collaborators
(containment queries via compareDocumentPosition, getBoundingClientRect)
are an explicit environment.  `console.assert` signals but does not halt,
so asserts are modelled as boolean error flags in the results.
-/

/-- One record of `this.hash[event]`: `{ node, callback, includeDescendants }`. -/
structure Ear where
  node : ℕ
  callback : ℕ
  includeDescendants : Bool
deriving DecidableEq

/-- The mutable state of a `Mouse` instance: the event-name-to-listeners
map `this.hash` and `this.captureNode`. -/
structure MouseState where
  hash : List (String × List Ear)
  captureNode : Option ℕ
deriving DecidableEq

/-- External DOM collaborators: `containsQ t n = true` iff `t` is a
descendant of `n` (the source's `contains(e.target, ear.node)`, i.e.
`compareDocumentPosition` bit 8), and the viewport-relative origin of each
node's bounding box. -/
structure DomEnv where
  containsQ : ℕ → ℕ → Bool
  boxX : ℕ → ℚ
  boxY : ℕ → ℚ

/-- A native event: its type string, target node and viewport position. -/
structure NativeEvent where
  type : String
  target : ℕ
  clientX : ℚ
  clientY : ℚ

/-- Source `Mouse.eventToNode`: mouse position in the coordinate system of `node`
(`clientX/Y` minus the node's bounding-box origin). -/
def Mouse.eventToNode (env : DomEnv) (node : ℕ) (e : NativeEvent) : ℚ × ℚ :=
  (e.clientX - env.boxX node, e.clientY - env.boxY node)

/-- One callback invocation produced by `handleEvent`: which callback, the
local point passed to it, and the `isCapturing` flag. -/
structure Invocation where
  callback : ℕ
  localPoint : ℚ × ℚ
  capturing : Bool
deriving DecidableEq

/-- Source `Mouse.handleEvent`: for each ear registered under the event's type,
if a capture node is set the callback is invoked with `capturing = true`
(note: the source checks only that `this.captureNode` is set, it does not
compare `ear.node` against it); otherwise the callback is invoked iff the
event targets the ear's node or, when `includeDescendants`, a descendant
of it.  Returns the list of invocations in order. -/
def Mouse.handleEvent (env : DomEnv) (st : MouseState) (e : NativeEvent) :
    List Invocation :=
  match List.lookup e.type st.hash with
  | none => []
  | some ears =>
    ears.filterMap fun ear =>
      if st.captureNode.isSome then
        some ⟨ear.callback, Mouse.eventToNode env ear.node e, true⟩
      else
        if e.target == ear.node ||
            (ear.includeDescendants && env.containsQ e.target ear.node) then
          some ⟨ear.callback, Mouse.eventToNode env ear.node e, false⟩
        else
          none

/-- Replace the listener list stored under `key` in the hash. -/
def hashSet (hash : List (String × List Ear)) (key : String)
    (val : List Ear) : List (String × List Ear) :=
  hash.map fun p => if p.1 == key then (p.1, val) else p

/-- Source `Mouse.register`: `if (!this.hash[event]) this.hash[event] = [];`
then push the new record. -/
def Mouse.register (st : MouseState) (event : String) (node cb : ℕ)
    (includeDescendants : Bool) : MouseState :=
  match List.lookup event st.hash with
  | none =>
    { st with hash := st.hash ++ [(event, [⟨node, cb, includeDescendants⟩])] }
  | some ears =>
    { st with
      hash := hashSet st.hash event (ears ++ [⟨node, cb, includeDescendants⟩]) }

/-- Source `Mouse.findNode`: first record under `eventName` whose node is `node`. -/
def Mouse.findNode (st : MouseState) (eventName : String) (node : ℕ) :
    Option Ear :=
  match List.lookup eventName st.hash with
  | some list => list.find? fun record => record.node == node
  | none => none

/-- Source `Mouse.releaseCapture`: if a node is captured, invoke its synthetic
"releaseCapture" listener (if any) and clear the capture.  Returns the new
state and the synthetic callbacks invoked. -/
def Mouse.releaseCapture (st : MouseState) : MouseState × List ℕ :=
  match st.captureNode with
  | some c =>
    let inv :=
      match Mouse.findNode st ("releaseCapture") c with
      | some record => [record.callback]
      | none => []
    ({ st with captureNode := none }, inv)
  | none => (st, [])

/-- Source `Mouse.setCapture`: release any existing capture, set the new capture
node, and invoke its synthetic "setCapture" listener (if any). -/
def Mouse.setCapture (st : MouseState) (node : ℕ) : MouseState × List ℕ :=
  let p := Mouse.releaseCapture st
  let st2 : MouseState := { p.1 with captureNode := some node }
  let inv :=
    match Mouse.findNode st2 ("setCapture") node with
    | some record => [record.callback]
    | none => []
  (st2, p.2 ++ inv)

/-- Result of `Mouse.unregister`: the new state, the two `console.assert`
error flags of the source (`"nothing registered for this event"` and
`"unregister did not match exactly one record"`), how many records the loop
removed, and the synthetic callbacks invoked by capture release. -/
structure UnregisterResult where
  state : MouseState
  missingEventError : Bool
  matchCountError : Bool
  removed : ℕ
  syntheticInvocations : List ℕ
deriving DecidableEq

/-- The `forEach`/`splice` loop of `Mouse.unregister`, with JavaScript's
exact iteration semantics: `kept` is the already-visited prefix of the
(mutated) array, `rest` the part from the current index onward.  When the
current record matches it is spliced out at the current index, so the
element that shifts into that index is skipped by `forEach` (moved to
`kept` unchecked).  When the removed record's node is the capture node,
`releaseCapture` runs against the current state of the whole hash.
Returns (final listener array, capture node, removed count, synthetic
invocations). -/
def Mouse.unregisterLoop (hash0 : List (String × List Ear)) (event : String)
    (node cb : ℕ) (includeDescendants : Bool) :
    List Ear → List Ear → Option ℕ → List Ear × Option ℕ × ℕ × List ℕ
  | kept, [], cap => (kept, cap, 0, [])
  | kept, r :: rest, cap =>
    if r.node == node && r.callback == cb &&
        r.includeDescendants == includeDescendants then
      let arrNow := kept ++ rest
      let stNow : MouseState := ⟨hashSet hash0 event arrNow, cap⟩
      let p :=
        if cap == some r.node then Mouse.releaseCapture stNow else (stNow, [])
      let cap1 := p.1.captureNode
      let inv1 := p.2
      match rest with
      | [] => (kept, cap1, 1, inv1)
      | s :: rest2 =>
        let q := Mouse.unregisterLoop hash0 event node cb includeDescendants
          (kept ++ [s]) rest2 cap1
        (q.1, q.2.1, q.2.2.1 + 1, inv1 ++ q.2.2.2)
    else
      Mouse.unregisterLoop hash0 event node cb includeDescendants
        (kept ++ [r]) rest cap

/-- Source `Mouse.unregister`: asserts the event has registrations, runs the
removal loop, then executes
`console.assert(removed !== 1, "unregister did not match exactly one
record")` — i.e. the match-count assertion fires exactly when `removed`
equals one. -/
def Mouse.unregister (st : MouseState) (event : String) (node cb : ℕ)
    (includeDescendants : Bool) : UnregisterResult :=
  match List.lookup event st.hash with
  | none =>
    -- `this.hash[event].forEach` would throw on undefined; the assert flag
    -- records the "nothing registered for this event" failure
    ⟨st, true, false, 0, []⟩
  | some ears =>
    let q := Mouse.unregisterLoop st.hash event node cb includeDescendants
      [] ears st.captureNode
    let removed := q.2.2.1
    ⟨⟨hashSet st.hash event q.1, q.2.1⟩, false, removed == 1, removed,
      q.2.2.2⟩

/-- C1 (code evaluated at the failing input): with callbacks 101 and 102
registered for "mousemove" against nodes 1 and 2 respectively and node 1
holding the capture, dispatching a "mousemove" targeting node 2 invokes
BOTH callbacks with `isCapturing = true` — the callback registered against
the non-captured node 2 is invoked as well, because `handleEvent` only
checks that a capture node exists and never compares `ear.node` to it. -/
theorem handleEvent_capture_invokes_other_nodes :
    (Mouse.handleEvent
        ⟨fun _ _ => false, fun _ => 0, fun _ => 0⟩
        ⟨[(("mousemove"), [⟨1, 101, true⟩, ⟨2, 102, true⟩])], some 1⟩
        ⟨("mousemove"), 2, 0, 0⟩).map Invocation.callback = [101, 102] ∧
    (Mouse.handleEvent
        ⟨fun _ _ => false, fun _ => 0, fun _ => 0⟩
        ⟨[(("mousemove"), [⟨1, 101, true⟩, ⟨2, 102, true⟩])], some 1⟩
        ⟨("mousemove"), 2, 0, 0⟩).map Invocation.capturing = [true, true] := by
  constructor <;> rfl

/-- C5 (code evaluated at the failing input): with exactly one registration
("mousemove", node 5, callback 77, includeDescendants true), unregistering
with exactly those four arguments removes exactly one record — yet the
source's `console.assert(removed !== 1, ...)` fires precisely in this case,
so the usage error is signalled on the success case and not signalled when
zero records match. -/
theorem unregister_assert_inverted :
    ((Mouse.unregister ⟨[(("mousemove"), [⟨5, 77, true⟩])], none⟩
        ("mousemove") 5 77 true).removed = 1 ∧
      (Mouse.unregister ⟨[(("mousemove"), [⟨5, 77, true⟩])], none⟩
        ("mousemove") 5 77 true).matchCountError = true ∧
      (Mouse.unregister ⟨[(("mousemove"), [⟨5, 77, true⟩])], none⟩
        ("mousemove") 5 77 true).state.hash = [(("mousemove"), [])]) ∧
    ((Mouse.unregister ⟨[(("mousemove"), [⟨5, 77, true⟩])], none⟩
        ("mousemove") 6 77 true).removed = 0 ∧
      (Mouse.unregister ⟨[(("mousemove"), [⟨5, 77, true⟩])], none⟩
        ("mousemove") 6 77 true).matchCountError = false) := by
  exact ⟨⟨rfl, rfl, rfl⟩, ⟨rfl, rfl⟩⟩

/-!
Embedding of src/animated.js (the `Animated` base class) and of the
identical keyed-lerp map duplicated in src/airplane.js, together with the
Airplane setters.  Lerp cancellation handles are opaque for `Animated`;
for `Airplane` a handle records the (from, to, duration) of the `lerp`
call that produced it.  A JS object keyed by strings holds at most one
value per key by construction, which the function-typed `lerps` field
mirrors.  `addLerp`/`cancelLerp` return the ordered trace of what they
did (cancellations invoked, stores performed).
-/

/-- Ordered trace events of the keyed animation set: invoking a stored
cancellation handle, and storing a new handle under a key. -/
inductive LerpEv (H : Type) where
  | cancel (handle : H)
  | store (key : String) (handle : H)
deriving DecidableEq

/-- Source `this.lerps` of the `Animated` base class (handles opaque). -/
structure AnimatedState where
  lerps : String → Option ℕ

/-- Source `Animated.cancelLerp`: `if (this.lerps[key]) { this.lerps[key]();
delete this.lerps[key]; }`. -/
def Animated.cancelLerp (s : AnimatedState) (key : String) :
    AnimatedState × List (LerpEv ℕ) :=
  match s.lerps key with
  | some f =>
    (⟨fun k => if k = key then none else s.lerps k⟩, [LerpEv.cancel f])
  | none => (s, [])

/-- Source `Animated.addLerp`: `this.cancelLerp(key); this.lerps[key] = callback;`
— the cancellation of the old handle happens before the new one is
stored. -/
def Animated.addLerp (s : AnimatedState) (key : String) (callback : ℕ) :
    AnimatedState × List (LerpEv ℕ) :=
  let p := Animated.cancelLerp s key
  (⟨fun k => if k = key then some callback else p.1.lerps k⟩,
    p.2 ++ [LerpEv.store key callback])

/-- A lerp cancellation handle of the Airplane: records the arguments of
the `lerp(from, to, duration, ...)` call that created it. -/
structure LerpSpec where
  src : ℚ
  dst : ℚ
  duration : ℚ
deriving DecidableEq

/-- The Airplane fields the animated setters touch (other numeric fields
are configured identically), plus its own `lerps` map (duplicated from
`Animated` in src/airplane.js). -/
structure AirplaneState where
  airspeed : ℚ
  altitude : ℚ
  lerps : String → Option LerpSpec

/-- Initial Airplane: `airspeed: 0, altitude: 0, lerps: {}`. -/
def Airplane.init : AirplaneState :=
  ⟨0, 0, fun _ => none⟩

/-- Source `Airplane.cancelLerp` (same source text as `Animated.cancelLerp`). -/
def Airplane.cancelLerp (a : AirplaneState) (key : String) :
    AirplaneState × List (LerpEv LerpSpec) :=
  match a.lerps key with
  | some f =>
    ({ a with lerps := fun k => if k = key then none else a.lerps k },
      [LerpEv.cancel f])
  | none => (a, [])

/-- Source `Airplane.addLerp` (same source text as `Animated.addLerp`). -/
def Airplane.addLerp (a : AirplaneState) (key : String) (handle : LerpSpec) :
    AirplaneState × List (LerpEv LerpSpec) :=
  let p := Airplane.cancelLerp a key
  ({ p.1 with lerps := fun k => if k = key then some handle else p.1.lerps k },
    p.2 ++ [LerpEv.store key handle])

/-- Source `Airplane.setAirspeed(kias)`: `if (kias !== this.airspeed)
this.addLerp("airspeed", lerp(this.airspeed, kias, 1000, ...))`.  The
boolean reports whether a new animation was started. -/
def Airplane.setAirspeed (a : AirplaneState) (kias : ℚ) :
    AirplaneState × Bool :=
  if kias ≠ a.airspeed then
    ((Airplane.addLerp a ("airspeed") ⟨a.airspeed, kias, 1000⟩).1, true)
  else
    (a, false)

/-- Source `Airplane.setAltitude(feet)`: `if (feet !== this.altitude)
this.addLerp("altitude", lerp(this.altitude, feet, 4000, ...))`. -/
def Airplane.setAltitude (a : AirplaneState) (feet : ℚ) :
    AirplaneState × Bool :=
  if feet ≠ a.altitude then
    ((Airplane.addLerp a ("altitude") ⟨a.altitude, feet, 4000⟩).1, true)
  else
    (a, false)

/-- The tick callback `setAirspeed` hands to `lerp`:
`speed => { this.airspeed = speed; this.callListeners(); }`. -/
def Airplane.airspeedTick (a : AirplaneState) (speed : ℚ) : AirplaneState :=
  { a with airspeed := speed }

/-- C3: in both keyed animation sets (the `Animated` base capability and
the Airplane's duplicated map), `addLerp key f2` after a prior
`addLerp key f1` produces exactly the trace
`[cancel f1, store key f2]` — the old handle is invoked (cancelled) before
the new one is stored — and afterwards the key maps to `f2` alone (the
string-keyed map holds at most one handle per key). -/
theorem addLerp_cancel_before_store :
    (∀ (s : AnimatedState) (key : String) (f1 f2 : ℕ),
      (Animated.addLerp (Animated.addLerp s key f1).1 key f2).2
          = [LerpEv.cancel f1, LerpEv.store key f2] ∧
      (Animated.addLerp (Animated.addLerp s key f1).1 key f2).1.lerps key
          = some f2) ∧
    (∀ (a : AirplaneState) (key : String) (h1 h2 : LerpSpec),
      (Airplane.addLerp (Airplane.addLerp a key h1).1 key h2).2
          = [LerpEv.cancel h1, LerpEv.store key h2] ∧
      (Airplane.addLerp (Airplane.addLerp a key h1).1 key h2).1.lerps key
          = some h2) := by
  constructor
  · intro s key f1 f2
    simp [Animated.addLerp, Animated.cancelLerp]
  · intro a key h1 h2
    simp [Airplane.addLerp, Airplane.cancelLerp]

/-- C8 counterexample: `setAirspeed(120)` from a fresh airplane starts an
animation toward 120; after a tick has moved the live value to 60,
calling `setAirspeed(120)` again — the same target as the in-flight
transition — starts a NEW animation (from 60 to 120), because the guard
compares the requested value against the current animating value, not
against the most-recently-requested target. -/
theorem setAirspeed_restarts_at_same_target :
    (Airplane.setAirspeed
        (Airplane.airspeedTick (Airplane.setAirspeed Airplane.init 120).1 60)
        120).2 = true ∧
    (Airplane.setAirspeed
        (Airplane.airspeedTick (Airplane.setAirspeed Airplane.init 120).1 60)
        120).1.lerps ("airspeed") = some ⟨60, 120, 1000⟩ := by
  constructor
  · simp [Airplane.setAirspeed, Airplane.airspeedTick, Airplane.addLerp,
      Airplane.cancelLerp, Airplane.init]
  · simp [Airplane.setAirspeed, Airplane.airspeedTick, Airplane.addLerp,
      Airplane.cancelLerp, Airplane.init]

/-- C8 (amended): each settable field starts a new keyed animation (from
the current value, with the field-specific duration) if and only if the
requested value differs from the field's CURRENT animating value; a
repeated call with the same target while the previous transition is still
in flight (current value ≠ target) restarts the animation. -/
theorem setter_starts_iff_differs_from_current (a : AirplaneState)
    (kias feet : ℚ) :
    ((Airplane.setAirspeed a kias).2 = true ↔ kias ≠ a.airspeed) ∧
    (kias ≠ a.airspeed →
      (Airplane.setAirspeed a kias).1.lerps ("airspeed")
          = some ⟨a.airspeed, kias, 1000⟩) ∧
    ((Airplane.setAltitude a feet).2 = true ↔ feet ≠ a.altitude) ∧
    (feet ≠ a.altitude →
      (Airplane.setAltitude a feet).1.lerps ("altitude")
          = some ⟨a.altitude, feet, 4000⟩) := by
  refine ⟨?_, ?_, ?_, ?_⟩
  · by_cases h : kias = a.airspeed <;>
      simp [Airplane.setAirspeed, h]
  · intro h
    simp [Airplane.setAirspeed, h, Airplane.addLerp, Airplane.cancelLerp]
  · by_cases h : feet = a.altitude <;>
      simp [Airplane.setAltitude, h]
  · intro h
    simp [Airplane.setAltitude, h, Airplane.addLerp, Airplane.cancelLerp]

/-- Witness for the amended C8 theorem at a fresh airplane with requested
airspeed 120 and altitude 100. -/
theorem setter_starts_iff_differs_witness :
    (Airplane.setAirspeed Airplane.init 120).1.lerps ("airspeed")
        = some ⟨0, 120, 1000⟩ ∧
    (Airplane.setAltitude Airplane.init 100).1.lerps ("altitude")
        = some ⟨0, 100, 4000⟩ := by
  refine ⟨?_, ?_⟩
  · have h := (setter_starts_iff_differs_from_current
      Airplane.init 120 100).2.1 (by norm_num [Airplane.init])
    simpa [Airplane.init] using h
  · have h := (setter_starts_iff_differs_from_current
      Airplane.init 120 100).2.2.2 (by norm_num [Airplane.init])
    simpa [Airplane.init] using h

/-!
Embedding of the listener list of src/disposable.js.  Callbacks are
identified by naturals.  `console.assert(this.listeners.indexOf(func) < 0,
"listener already registered")` signals an error but does not halt, so the
`push` that follows it executes unconditionally.
-/

/-- Source `Disposable.addListener`: assert the callback is not registered
(signalled as the boolean), then push it regardless. -/
def Disposable.addListener (listeners : List ℕ) (func : ℕ) :
    List ℕ × Bool :=
  (listeners ++ [func], listeners.contains func)

/-- Source `Disposable.removeListener`: assert the callback is registered
(error flag when it is not), then
`this.listeners = this.listeners.filter(f => f !== func)`. -/
def Disposable.removeListener (listeners : List ℕ) (func : ℕ) :
    List ℕ × Bool :=
  (listeners.filter fun f => f != func, !listeners.contains func)

/-- A sequence of listener-collection operations. -/
inductive ListenerOp where
  | add (func : ℕ)
  | remove (func : ℕ)

/-- Run a sequence of add/remove listener calls against a collection. -/
def Disposable.applyOps (listeners : List ℕ) : List ListenerOp → List ℕ
  | [] => listeners
  | ListenerOp.add f :: rest =>
    Disposable.applyOps (Disposable.addListener listeners f).1 rest
  | ListenerOp.remove f :: rest =>
    Disposable.applyOps (Disposable.removeListener listeners f).1 rest

/-- A call sequence respects the assertion discipline when no `addListener`
in it is invoked with a callback that is currently registered. -/
def Disposable.disciplined (listeners : List ℕ) : List ListenerOp → Bool
  | [] => true
  | ListenerOp.add f :: rest =>
    !listeners.contains f &&
      Disposable.disciplined (Disposable.addListener listeners f).1 rest
  | ListenerOp.remove f :: rest =>
    Disposable.disciplined (Disposable.removeListener listeners f).1 rest

/-- C9 counterexample: adding the same callback reference twice signals the
"listener already registered" assertion, but — `console.assert` not
halting — the duplicate is pushed anyway, and the collection ends up
holding the identical callback twice. -/
theorem addListener_duplicate_is_inserted :
    (Disposable.addListener (Disposable.addListener [] 7).1 7).2 = true ∧
    (Disposable.addListener (Disposable.addListener [] 7).1 7).1 = [7, 7] ∧
    ¬ (Disposable.addListener (Disposable.addListener [] 7).1 7).1.Nodup := by
  refine ⟨rfl, rfl, ?_⟩
  decide

/-- C9 (amended): `addListener` with an already-registered callback signals
the usage error but still appends the duplicate; the no-duplicate invariant
holds for exactly those call sequences in which every `addListener` is
invoked with a callback not currently registered. -/
theorem listeners_nodup_when_disciplined (ops : List ListenerOp)
    (listeners : List ℕ) (hnd : listeners.Nodup)
    (hd : Disposable.disciplined listeners ops = true) :
    (Disposable.applyOps listeners ops).Nodup := by
  induction ops generalizing listeners with
  | nil => exact hnd
  | cons op rest ih =>
    cases op with
    | add f =>
      rw [Disposable.disciplined, Bool.and_eq_true] at hd
      refine ih _ ?_ hd.2
      have hmem : f ∉ listeners := by
        simpa using hd.1
      simp [Disposable.addListener, List.nodup_append, hnd, hmem]
    | remove f =>
      rw [Disposable.disciplined] at hd
      exact ih _ (hnd.filter _) hd

/-- Witness for the amended C9 theorem: the disciplined sequence
add 1, add 2, remove 1 from an empty collection ends with no duplicates. -/
theorem listeners_nodup_witness :
    ([] : List ℕ).Nodup ∧
    Disposable.disciplined []
      [ListenerOp.add 1, ListenerOp.add 2, ListenerOp.remove 1] = true ∧
    (Disposable.applyOps []
      [ListenerOp.add 1, ListenerOp.add 2, ListenerOp.remove 1]).Nodup := by
  refine ⟨List.nodup_nil, by decide, ?_⟩
  exact listeners_nodup_when_disciplined _ _ List.nodup_nil (by decide)

/-!
Embedding of the `AnimatedValue` constructor of src/utils/time.js:
`Object.assign(this, options, { lowLimit: -Number.MAX_VALUE,
hiLimit: Number.MAX_VALUE, time: 1000, callback: () => {} })`.
-/

/-- Source `Number.MAX_VALUE` exactly: `(2^53 - 1) * 2^971`. -/
def numberMaxValue : ℚ :=
  (2 ^ 53 - 1) * 2 ^ 971

/-- The callback slot of an `AnimatedValue`: the default no-op arrow
function, or a user-supplied function (identified opaquely). -/
inductive AVCallback where
  | noop
  | user (id : ℕ)
deriving DecidableEq

/-- The `options` argument: each recognized key may be present or absent. -/
structure AVOptions where
  lowLimit : Option ℚ
  hiLimit : Option ℚ
  time : Option ℚ
  callback : Option ℕ

/-- JS `Object.assign(target, s1, s2, ...)` field resolution, sources
listed left to right: the last source that defines the field wins. -/
def assignLast {α : Type} (sources : List (Option α)) : Option α :=
  sources.foldl
    (fun acc s =>
      match s with
      | some v => some v
      | none => acc)
    none

/-- The fields of a constructed `AnimatedValue`. -/
structure AnimatedValue where
  lowLimit : ℚ
  hiLimit : ℚ
  time : ℚ
  callback : AVCallback
  value : ℚ
  currentValue : ℚ

/-- The `AnimatedValue` constructor: merge `options` then the
defaults object (in that order, so the defaults — listed LAST in the
`Object.assign` call — overwrite anything from `options`), clamp `value`
to the resulting limits, and record `currentValue`. -/
def AnimatedValue.make (value : ℚ) (options : AVOptions) : AnimatedValue :=
  let lowLimit :=
    (assignLast [options.lowLimit, some (-numberMaxValue)]).getD 0
  let hiLimit :=
    (assignLast [options.hiLimit, some numberMaxValue]).getD 0
  let time :=
    (assignLast [options.time, some 1000]).getD 0
  let callback :=
    (assignLast [options.callback.map AVCallback.user,
      some AVCallback.noop]).getD AVCallback.noop
  ⟨lowLimit, hiLimit, time, callback,
    max lowLimit (min hiLimit value), value⟩

/-- C10: whatever `options` supplies — including explicit `lowLimit`,
`hiLimit`, `time` or `callback` entries — the constructed instance always
carries `lowLimit = -Number.MAX_VALUE`, `hiLimit = Number.MAX_VALUE`,
`time = 1000` and the no-op callback, because the defaults object is the
last `Object.assign` source and overwrites the options. -/
theorem animatedValue_defaults_override (value : ℚ) (options : AVOptions) :
    (AnimatedValue.make value options).lowLimit = -numberMaxValue ∧
    (AnimatedValue.make value options).hiLimit = numberMaxValue ∧
    (AnimatedValue.make value options).time = 1000 ∧
    (AnimatedValue.make value options).callback = AVCallback.noop :=
  ⟨rfl, rfl, rfl, rfl⟩

/-!
Embedding of `Rotatable.onMouseMove` from src/rotatable-button.js, with
`angleFrom` / `atan2` from src/geometry/angle.js over the reals.
-/

/-- JS `Math.atan2(y, x)`. -/
noncomputable def atan2 (y x : ℝ) : ℝ :=
  if 0 < x then Real.arctan (y / x)
  else if x < 0 then
    if 0 ≤ y then Real.arctan (y / x) + Real.pi
    else Real.arctan (y / x) - Real.pi
  else
    if 0 < y then Real.pi / 2
    else if y < 0 then -(Real.pi / 2)
    else 0

/-- Source `angleFrom` from src/geometry/angle.js: angle of `position` around
`center` in degrees; negative raw angles are mapped by
`a = 180 + (180 + a)` so the result is never negative. -/
noncomputable def angleFrom (center position : ℝ × ℝ) : ℝ :=
  let a := atan2 (position.2 - center.2) (position.1 - center.1) * 180 /
    Real.pi
  if a < 0 then 180 + (180 + a) else a

/-- The `Rotatable` fields touched by `onMouseMove`: the last pointer
angle (valid only while captured), the rotation accumulator, the `gear`
sensitivity, and the control's center. -/
structure RotatableState where
  lastAngle : ℝ
  rotation : ℝ
  gear : ℝ
  center : ℝ × ℝ

/-- Source `Rotatable.onMouseMove(e, local, capture)`: only while capturing and
with a rotation callback, compute the new pointer angle and its
`angularDelta` from `lastAngle`, set `this.lastAngle = angle`
(unconditionally, BEFORE the jitter check), then — only when
`Math.abs(delta) < 20` (`JITTER_THRESHOLD`) — invoke the rotation callback
with `delta * gear` and accumulate `delta` into `rotation`.  Returns the
new state and the values passed to the rotation callback. -/
noncomputable def Rotatable.onMouseMove (s : RotatableState)
    (capture hasRotationCallback : Bool) (localPt : ℝ × ℝ) :
    RotatableState × List ℝ :=
  if capture && hasRotationCallback then
    let angle := angleFrom s.center localPt
    let delta := angularDelta s.lastAngle angle
    let s1 : RotatableState := { s with lastAngle := angle }
    if |delta| < 20 then
      ({ s1 with rotation := s1.rotation + delta }, [delta * s.gear])
    else
      (s1, [])
  else
    (s, [])

theorem angleFrom_straight_down :
    angleFrom ((0 : ℝ), (0 : ℝ)) ((0 : ℝ), (1 : ℝ)) = 90 := by
  have hpi := Real.pi_pos
  have h2 : atan2 ((1 : ℝ) - 0) ((0 : ℝ) - 0) = Real.pi / 2 := by
    unfold atan2
    norm_num
  unfold angleFrom
  simp only [h2]
  rw [if_neg]
  · field_simp
    ring
  · push_neg
    positivity

theorem angularDelta_zero_ninety : angularDelta (0 : ℝ) 90 = 90 := by
  unfold angularDelta
  rw [show (90 : ℝ) - 0 = 90 by norm_num]
  rw [wrapLow, if_neg (by norm_num)]
  rw [wrapHigh, if_neg (by norm_num)]

/-- C4 counterexample: a captured Rotatable with a rotation callback,
`lastAngle = 0`, `rotation = 7`, centered at the origin, receives a
mouse-move whose local point is straight below the center (angle 90°, an
angular delta of 90° > the 20° jitter threshold).  The sample is discarded
— no callback invocation, rotation unchanged — but `lastAngle` is updated
to 90 rather than retaining its pre-sample value 0, because the source
assigns `this.lastAngle = angle` before the jitter check. -/
theorem onMouseMove_discard_updates_lastAngle :
    (Rotatable.onMouseMove ⟨0, 7, 1, (0, 0)⟩ true true (0, 1)).2 = [] ∧
    (Rotatable.onMouseMove ⟨0, 7, 1, (0, 0)⟩ true true (0, 1)).1.rotation
        = 7 ∧
    (Rotatable.onMouseMove ⟨0, 7, 1, (0, 0)⟩ true true (0, 1)).1.lastAngle
        = 90 ∧
    (Rotatable.onMouseMove ⟨0, 7, 1, (0, 0)⟩ true true (0, 1)).1.lastAngle
        ≠ 0 := by
  have heval : Rotatable.onMouseMove ⟨0, 7, 1, (0, 0)⟩ true true (0, 1)
      = (⟨90, 7, 1, (0, 0)⟩, []) := by
    unfold Rotatable.onMouseMove
    simp only [angleFrom_straight_down, angularDelta_zero_ninety]
    norm_num
  rw [heval]
  norm_num

/-- C4 (amended): for a captured Rotatable with a rotation callback, a
mouse-move sample whose angular delta from `lastAngle` exceeds the
20-degree jitter threshold yields zero rotation-callback invocations and
leaves the rotation accumulator unchanged, but `lastAngle` is updated to
the spurious sample's angle (it does not retain its previous value). -/
theorem onMouseMove_jitter_discarded (s : RotatableState) (localPt : ℝ × ℝ)
    (h : 20 < |angularDelta s.lastAngle (angleFrom s.center localPt)|) :
    (Rotatable.onMouseMove s true true localPt).2 = [] ∧
    (Rotatable.onMouseMove s true true localPt).1.rotation = s.rotation ∧
    (Rotatable.onMouseMove s true true localPt).1.lastAngle
        = angleFrom s.center localPt := by
  unfold Rotatable.onMouseMove
  simp only [Bool.and_self, if_true]
  rw [if_neg (by push_neg; linarith)]
  exact ⟨rfl, rfl, rfl⟩

/-- Witness for the amended C4 theorem: the concrete spurious sample of the
counterexample state (delta 90° > 20°). -/
theorem onMouseMove_jitter_discarded_witness :
    20 < |angularDelta (RotatableState.mk 0 7 1 (0, 0)).lastAngle
        (angleFrom (RotatableState.mk 0 7 1 (0, 0)).center (0, 1))| ∧
    (Rotatable.onMouseMove (RotatableState.mk 0 7 1 (0, 0)) true true
        (0, 1)).1.lastAngle
      = angleFrom (RotatableState.mk 0 7 1 (0, 0)).center (0, 1) ∧
    (Rotatable.onMouseMove (RotatableState.mk 0 7 1 (0, 0)) true true
        (0, 1)).2 = [] := by
  have h : 20 < |angularDelta (RotatableState.mk 0 7 1 (0, 0)).lastAngle
      (angleFrom (RotatableState.mk 0 7 1 (0, 0)).center (0, 1))| := by
    show 20 < |angularDelta (0 : ℝ) (angleFrom ((0 : ℝ), (0 : ℝ)) (0, 1))|
    rw [angleFrom_straight_down, angularDelta_zero_ninety]
    norm_num
  have hc := onMouseMove_jitter_discarded (RotatableState.mk 0 7 1 (0, 0))
    (0, 1) h
  exact ⟨h, hc.2.2, hc.1⟩

/-!
Embedding of `lerp` from src/utils/time.js.  Each scheduled `timer` tick
reads `now`; while `now < endTime` it delivers
`from + normalized * (to - from)` (sine easing when `ease`) and
reschedules; otherwise it delivers exactly `to` and stops.  `lerpRun`
folds the timer over a sequence of clock readings, one per scheduled
frame, stopping after the first completing tick.
-/

/-- The value one `timer` tick of `lerp(from, to, time, ...)` delivers when
the clock reads `now`. -/
noncomputable def lerpValue (src dst time startTime : ℝ) (ease : Bool)
    (now : ℝ) : ℝ :=
  if now < startTime + time then
    let delta := now - startTime
    let normalized :=
      if ease then Real.sin (delta / time * (Real.pi / 2)) else delta / time
    src + normalized * (dst - src)
  else
    dst

/-- The list of values delivered to the callback when the scheduler runs
the timer at the given successive clock readings: each in-progress tick
delivers its interpolated value and reschedules; the first tick at or past
`startTime + time` delivers exactly `dst` and cancels the frame request,
so no further values are delivered. -/
noncomputable def lerpRun (src dst time startTime : ℝ) (ease : Bool) :
    List ℝ → List ℝ
  | [] => []
  | t :: ts =>
    if t < startTime + time then
      lerpValue src dst time startTime ease t ::
        lerpRun src dst time startTime ease ts
    else
      [dst]


theorem lerpValue_eq_of_lt {src dst time startTime now : ℝ}
    (h : now < startTime + time) :
    lerpValue src dst time startTime true now
      = src + Real.sin ((now - startTime) / time * (Real.pi / 2)) *
          (dst - src) := by
  unfold lerpValue
  rw [if_pos h]
  simp

theorem lerpValue_eq_of_ge {src dst time startTime now : ℝ}
    (h : ¬ now < startTime + time) :
    lerpValue src dst time startTime true now = dst := by
  unfold lerpValue
  rw [if_neg h]

theorem lerpValue_le_dst {src dst time startTime now : ℝ} (hab : src ≤ dst)
    (ht : 0 < time) (hs : startTime ≤ now) :
    lerpValue src dst time startTime true now ≤ dst := by
  by_cases h : now < startTime + time
  · rw [lerpValue_eq_of_lt h]
    have hsin : Real.sin ((now - startTime) / time * (Real.pi / 2)) ≤ 1 :=
      Real.sin_le_one _
    have hkey := mul_le_mul_of_nonneg_right hsin (sub_nonneg.mpr hab)
    linarith
  · rw [lerpValue_eq_of_ge h]

theorem lerpValue_mono {src dst time startTime t1 t2 : ℝ} (hab : src ≤ dst)
    (ht : 0 < time) (h0 : startTime ≤ t1) (h12 : t1 ≤ t2)
    (h2 : t2 < startTime + time) :
    lerpValue src dst time startTime true t1 ≤
      lerpValue src dst time startTime true t2 := by
  have h1 : t1 < startTime + time := lt_of_le_of_lt h12 h2
  rw [lerpValue_eq_of_lt h1, lerpValue_eq_of_lt h2]
  have hpi := Real.pi_pos
  have hq1 : 0 ≤ (t1 - startTime) / time := div_nonneg (by linarith) ht.le
  have hq12 : (t1 - startTime) / time ≤ (t2 - startTime) / time :=
    div_le_div_of_nonneg_right (by linarith) ht.le
  have hq2 : (t2 - startTime) / time < 1 := by
    rw [div_lt_one ht]
    linarith
  have hx1lo : -(Real.pi / 2) ≤ (t1 - startTime) / time * (Real.pi / 2) := by
    have := mul_nonneg hq1 (by linarith : (0 : ℝ) ≤ Real.pi / 2)
    linarith
  have hx2hi : (t2 - startTime) / time * (Real.pi / 2) ≤ Real.pi / 2 := by
    have := mul_le_mul_of_nonneg_right hq2.le
      (by linarith : (0 : ℝ) ≤ Real.pi / 2)
    linarith
  have hxx : (t1 - startTime) / time * (Real.pi / 2) ≤
      (t2 - startTime) / time * (Real.pi / 2) :=
    mul_le_mul_of_nonneg_right hq12 (by linarith)
  have hsin := Real.sin_le_sin_of_le_of_le_pi_div_two hx1lo hx2hi hxx
  have hkey := mul_le_mul_of_nonneg_right hsin (sub_nonneg.mpr hab)
  linarith

/-- C7: a lerp with eased interpolation from `src ≤ dst` over a positive
duration, ticked at non-decreasing clock readings (none earlier than the
start) and run to completion (some reading reaches the end time), delivers
a non-decreasing sequence of values whose final element is exactly `dst`. -/
theorem lerp_delivers_monotone_and_exact_final (src dst time startTime : ℝ)
    (ts : List ℝ) (hab : src ≤ dst) (ht : 0 < time)
    (hchain : ts.Chain' (· ≤ ·)) (hge : ∀ t ∈ ts, startTime ≤ t)
    (hdone : ∃ t ∈ ts, startTime + time ≤ t) :
    (lerpRun src dst time startTime true ts).Chain' (· ≤ ·) ∧
    (lerpRun src dst time startTime true ts).getLast? = some dst := by
  induction ts with
  | nil => simp at hdone
  | cons t ts ih =>
    by_cases hlt : t < startTime + time
    · have hne : ∃ u ∈ ts, startTime + time ≤ u := by
        obtain ⟨u, hu, hud⟩ := hdone
        rcases List.mem_cons.mp hu with hut | huts
        · exact absurd hud (by rw [hut]; linarith)
        · exact ⟨u, huts, hud⟩
      have hchain2 : ts.Chain' (· ≤ ·) := hchain.tail
      have hge2 : ∀ u ∈ ts, startTime ≤ u := fun u hu =>
        hge u (List.mem_cons_of_mem _ hu)
      obtain ⟨ihc, ihl⟩ := ih hchain2 hge2 hne
      rw [lerpRun, if_pos hlt]
      constructor
      · rw [List.chain'_cons']
        refine ⟨?_, ihc⟩
        intro y hy
        cases ts with
        | nil => simp at hne
        | cons u ts2 =>
          have htu : t ≤ u := (List.chain'_cons.mp hchain).1
          have hst : startTime ≤ t := hge t (List.mem_cons_self t _)
          rw [lerpRun] at hy
          by_cases hu : u < startTime + time
          · rw [if_pos hu] at hy
            simp only [List.head?_cons, Option.mem_some_iff] at hy
            rw [← hy]
            exact lerpValue_mono hab ht hst htu hu
          · rw [if_neg hu] at hy
            simp only [List.head?_cons, Option.mem_some_iff] at hy
            rw [← hy]
            exact lerpValue_le_dst hab ht hst
      · cases hrl : lerpRun src dst time startTime true ts with
        | nil => rw [hrl] at ihl; simp at ihl
        | cons b l =>
          rw [hrl] at ihl
          rw [List.getLast?_cons_cons]
          exact ihl
    · rw [lerpRun, if_neg hlt]
      exact ⟨List.chain'_singleton _, rfl⟩

/-- Witness for C7: the lerp from 0 to 100 over 1000ms started at clock 0
and ticked at clock readings 0 and 1000. -/
theorem lerp_delivers_monotone_witness :
    (0 : ℝ) ≤ 100 ∧ (0 : ℝ) < 1000 ∧
    (lerpRun 0 100 1000 0 true [0, 1000]).Chain' (· ≤ ·) ∧
    (lerpRun 0 100 1000 0 true [0, 1000]).getLast? = some 100 := by
  have h := lerp_delivers_monotone_and_exact_final 0 100 1000 0 [0, 1000]
    (by norm_num) (by norm_num)
    (by simp [List.chain'_cons, List.chain'_singleton])
    (by intro t htm; simp at htm; rcases htm with h1 | h1 <;> norm_num [h1])
    ⟨1000, by simp, by norm_num⟩
  exact ⟨by norm_num, by norm_num, h.1, h.2⟩
